import Mathlib

/-!
Shallow embedding of `zia_custom_category_analyzer_oauth.py`: the OAuth token
manager, the rate gate, the two-attempt 429 retry loop of the HTTP gateway,
the category URL collector, the chunked bulk URL lookup, and the coverage
aggregation of `analyze_category`.  Machine arithmetic is modelled with
`Int`/`Nat`/`ℚ`; wall-clock time is an explicit parameter threaded through the
stateful parts; HTTP traffic is an explicit oracle argument.
-/

namespace ZiaAnalyzer

/-! ### Python string helpers used by the 429 backoff parser -/

/-- Worker for `pySplit`: `acc` holds the characters of the token in
progress, reversed. -/
def pySplitAux : List Char → List Char → List String
  | [], acc => if acc = [] then [] else [String.mk acc.reverse]
  | c :: rest, acc =>
    if c.isWhitespace then
      if acc = [] then pySplitAux rest []
      else String.mk acc.reverse :: pySplitAux rest []
    else pySplitAux rest (c :: acc)

/-- Tokens of Python `str.split()` called with no argument: split on runs of
whitespace, ignoring leading and trailing whitespace, producing no empty
tokens. -/
def pySplit (s : String) : List String :=
  pySplitAux s.toList []

/-- Remainder of a Python decimal integer literal after its first digit:
digits, with single underscores allowed between two digits. -/
def pyDigitsRest : List Char → Bool
  | [] => true
  | '_' :: c :: rest => c.isDigit && pyDigitsRest rest
  | c :: rest => c.isDigit && pyDigitsRest rest

/-- A nonempty Python decimal digit sequence (underscore separators allowed
between digits, never leading, trailing, or doubled). -/
def pyDigitPart : List Char → Bool
  | [] => false
  | c :: rest => c.isDigit && pyDigitsRest rest

/-- Numeric value of a digit sequence, ignoring underscore separators. -/
def digitsVal (cs : List Char) : Nat :=
  cs.foldl (fun a c => if c = '_' then a else a * 10 + (c.toNat - 48)) 0

/-- Python `int(tok)` on a whitespace-free token `tok` (the tokens produced by
`str.split()` contain no whitespace): an optional sign followed by a decimal
digit part; anything else raises `ValueError`, modelled as `none`. -/
def pyInt (s : String) : Option Int :=
  match s.toList with
  | '+' :: rest => if pyDigitPart rest then some (digitsVal rest) else none
  | '-' :: rest => if pyDigitPart rest then some (-(digitsVal rest : Int)) else none
  | cs => if pyDigitPart cs then some (digitsVal cs) else none

/-- The value of `int(retry_msg.split()[0])`: `none` whenever that expression
raises (`IndexError` on an empty token list, `ValueError` on a non-integer
token), `some n` otherwise. -/
def leadingInt (s : String) : Option Int :=
  match pySplit s with
  | [] => none
  | t :: _ => pyInt t

/-! ### HTTP gateway: 429 backoff and the two-attempt retry loop
(`ZscalerAPIClient.get` lines 126-159, `ZscalerAPIClient.post` lines 168-201) -/

/-- The error body of a 429 response as the retry path observes it: either
everything inside the `try` block before the `.split()` raises (the body is
not JSON, not a JSON object, or its `Retry-After` value is not a string) —
constructor `notJson` — or the body is an object whose `Retry-After` field is
the given string, or absent. -/
inductive ErrorBody where
  | notJson
  | json (retryAfter : Option String)
deriving DecidableEq

/-- The backoff wait (in seconds) computed on a 429 response: take the
`Retry-After` field of the JSON error body, defaulting to the placeholder
string `"2 seconds"` when the field is absent, parse the leading integer of
that string and add 2; any exception on the way falls back to 3. -/
def computeBackoff (body : ErrorBody) : Int :=
  match body with
  | .notJson => 3
  | .json f =>
    match leadingInt (f.getD "2 seconds") with
    | some n => n + 2
    | none => 3

/-- Outcome of one HTTP attempt as seen through `raise_for_status`: a 2xx
payload, an `HTTPError` carrying the status and error body, or a non-HTTP
`RequestException`. -/
inductive HttpOutcome (α : Type) where
  | ok (payload : α)
  | httpError (status : Nat) (body : ErrorBody)
  | netError
deriving DecidableEq

/-- Result of a whole `get`/`post` call: the returned payload, or the
propagated exception. -/
inductive CallResult (α : Type) where
  | success (payload : α)
  | httpFailure (status : Nat)
  | netFailure
deriving DecidableEq

/-- The `for attempt in range(2)` loop shared by `ZscalerAPIClient.get` and
`ZscalerAPIClient.post`: issue attempt 0; on a 429 with `attempt == 0` sleep
`computeBackoff` and issue attempt 1; any other `HTTPError`, any
`RequestException`, and any error on attempt 1 propagates.  `outcomes n` is
the response the server gives to the n-th attempt.  Returns the call result,
the number of HTTP attempts issued, and the list of backoff sleeps performed. -/
def requestWithRetry {α : Type} (outcomes : Nat → HttpOutcome α) :
    CallResult α × Nat × List Int :=
  match outcomes 0 with
  | .ok p => (.success p, 1, [])
  | .netError => (.netFailure, 1, [])
  | .httpError s b =>
    if s = 429 then
      match outcomes 1 with
      | .ok p => (.success p, 2, [computeBackoff b])
      | .netError => (.netFailure, 2, [computeBackoff b])
      | .httpError s2 _ => (.httpFailure s2, 2, [computeBackoff b])
    else (.httpFailure s, 1, [])

/-! ### Token manager (`_get_access_token` lines 75-106,
`_ensure_authenticated` lines 108-117) -/

/-- The JSON body of a successful token exchange: `access_token` and the
optional `expires_in` (seconds). -/
structure TokenResponse where
  access_token : String
  expires_in : Option Int
deriving DecidableEq

/-- The token fields of `ZscalerAPIClient`: `self.access_token` (initially
`None`) and `self.token_expiry` (initially 0). -/
structure ClientState where
  access_token : Option String
  token_expiry : Int
deriving DecidableEq

/-- Python falsiness of `self.access_token`: `None` or the empty string. -/
def tokenFalsy : Option String → Bool
  | none => true
  | some s => s = ""

/-- `_get_access_token` on a successful exchange at wall-clock time `now`:
stores the token and `token_expiry = now + expires_in - 300`, with
`expires_in` defaulting to 3600 when absent from the response. -/
def getAccessToken (now : Int) (resp : TokenResponse) : ClientState :=
  { access_token := some resp.access_token
    token_expiry := now + resp.expires_in.getD 3600 - 300 }

/-- `_ensure_authenticated` at wall-clock time `now`, where `resp` is the body
the identity endpoint would return if an exchange happens: refresh when the
held token is falsy or `now >= token_expiry`, otherwise keep the state. -/
def ensureAuthenticated (now : Int) (resp : TokenResponse) (st : ClientState) :
    ClientState :=
  if tokenFalsy st.access_token ∨ st.token_expiry ≤ now then getAccessToken now resp
  else st

/-! ### Rate gate (`_enforce_rate_limit` lines 64-73) -/

/-- `self.min_request_interval = 2.0`. -/
def min_request_interval : ℚ := 2

/-- `_enforce_rate_limit` with an explicit clock: given the stored
`last_request_time` and the current time `now`, sleep the deficit when less
than `min_request_interval` has elapsed.  The returned value is the time at
which the call completes; the source stores exactly this instant (the
`time.time()` taken after the sleep) as the new `last_request_time`. -/
def enforceRateLimit (last now : ℚ) : ℚ :=
  if now - last < min_request_interval then
    now + (min_request_interval - (now - last))
  else now

/-! ### URL collector (`get_category_urls` lines 224-243) -/

/-- The category-detail response body: the `urls` and `dbCategorizedUrls`
arrays and the optional `configuredName`. -/
structure CategoryDetail where
  urls : List String
  dbCategorizedUrls : List String
  configuredName : Option String
deriving DecidableEq

/-- The `seen`/`unique_urls` loop of `get_category_urls`: keep each URL the
first time it appears, skip it when it is already in `seen`. -/
def dedupAux (seen : List String) : List String → List String
  | [] => []
  | u :: rest =>
    if u ∈ seen then dedupAux seen rest
    else u :: dedupAux (u :: seen) rest

/-- `get_category_urls` given the fetched category detail: concatenate `urls`
then `dbCategorizedUrls`, deduplicate by first occurrence, and return the
display name with fallback `"UNKNOWN"`. -/
def get_category_urls (data : CategoryDetail) : List String × String :=
  (dedupAux [] (data.urls ++ data.dbCategorizedUrls),
    data.configuredName.getD "UNKNOWN")

/-! ### Batch classifier (`lookup_urls` lines 246-269) -/

/-- One element of the `/urlLookup` response array. -/
structure LookupResult where
  url : String
  urlClassifications : List String
deriving DecidableEq

/-- The chunks `urls[i : i + 100]` for `i in range(0, len(urls), 100)`, in
loop order. -/
def chunks100 (urls : List String) : List (List String) :=
  if h : urls = [] then []
  else urls.take 100 :: chunks100 (urls.drop 100)
termination_by urls.length
decreasing_by
  simp only [List.length_drop]
  have : 0 < urls.length := List.length_pos.mpr h
  omega

/-- `lookup_urls` with the Gateway abstracted as `oracle` (the `/urlLookup`
response to one chunked POST): extend `all_results` with each chunk response
in chunk order. -/
def lookup_urls (oracle : List String → List LookupResult)
    (urls : List String) : List LookupResult :=
  ((chunks100 urls).map oracle).flatten

/-- Number of Gateway POST calls `lookup_urls` issues: one per chunk. -/
def lookupCallCount (urls : List String) : Nat :=
  (chunks100 urls).length

/-! ### Coverage aggregator (`analyze_category` processing loop, lines
447-474) -/

/-- The `category_count[cat] = category_count.get(cat, 0) + 1` dict update,
with the dict modelled as an insertion-ordered association list: bump an
existing key in place, append a new key at the end with count 1. -/
def bumpCount : List (String × Nat) → String → List (String × Nat)
  | [], cat => [(cat, 1)]
  | (k, v) :: rest, cat =>
    if k = cat then (k, v + 1) :: rest else (k, v) :: bumpCount rest cat

/-- The four accumulators of the `analyze_category` processing loop. -/
structure AggState where
  uncategorized_urls : List String
  categorized_count : Nat
  category_count : List (String × Nat)
  results_for_csv : List (String × String)
deriving DecidableEq

/-- One iteration of `for item in lookup_results`: when `urlClassifications`
is non-empty (Python truthiness of the list) count the URL as categorized,
bump every label, and emit the `", ".join(categories)` row; otherwise record
the URL as uncategorized and emit the `"<Not categorized>"` row. -/
def processItem (st : AggState) (item : LookupResult) : AggState :=
  if item.urlClassifications.isEmpty then
    { st with
      uncategorized_urls := st.uncategorized_urls ++ [item.url]
      results_for_csv := st.results_for_csv ++ [(item.url, "<Not categorized>")] }
  else
    { st with
      categorized_count := st.categorized_count + 1
      category_count := item.urlClassifications.foldl bumpCount st.category_count
      results_for_csv := st.results_for_csv ++
        [(item.url, String.intercalate ", " item.urlClassifications)] }

/-- The loop over `lookup_results`, started from empty accumulators. -/
def aggregate (results : List LookupResult) : AggState :=
  results.foldl processItem ⟨[], 0, [], []⟩

/-- Round half to even, the rounding Python's builtin `round` uses. -/
def roundHalfEven (q : ℚ) : ℤ :=
  if Int.fract q < 1 / 2 then ⌊q⌋
  else if 1 / 2 < Int.fract q then ⌊q⌋ + 1
  else if ⌊q⌋ % 2 = 0 then ⌊q⌋ else ⌊q⌋ + 1

/-- Python `round(x, 2)`, with the arithmetic idealized over ℚ rather than
IEEE doubles. -/
def round2 (q : ℚ) : ℚ := (roundHalfEven (q * 100) : ℚ) / 100

/-- `percent_categorized`: `round((categorized_count / total) * 100, 2)` when
`total > 0`, else 0. -/
def percent_categorized (results : List LookupResult) : ℚ :=
  if 0 < results.length then
    round2 (((aggregate results).categorized_count : ℚ) / results.length * 100)
  else 0

/-- `percent_uncategorized`: `round((len(uncategorized_urls) / total) * 100,
2)` when `total > 0`, else 0. -/
def percent_uncategorized (results : List LookupResult) : ℚ :=
  if 0 < results.length then
    round2 (((aggregate results).uncategorized_urls.length : ℚ) / results.length * 100)
  else 0

/-- Total of all per-label frequency counts. -/
def countSum (m : List (String × Nat)) : Nat :=
  (m.map Prod.snd).sum

/-- The row `analyze_category` appends to `results_for_csv` for one lookup
result. -/
def rowEntry (item : LookupResult) : String × String :=
  (item.url,
    if item.urlClassifications.isEmpty then "<Not categorized>"
    else String.intercalate ", " item.urlClassifications)

/-! ## Structural lemmas about the chunk loop -/

theorem chunks100_flatten (l : List String) : (chunks100 l).flatten = l := by
  induction l using chunks100.induct with
  | case1 => simp [chunks100]
  | case2 l h ih => rw [chunks100]; simp [h, ih]

theorem chunks100_length_eq (l : List String) :
    (chunks100 l).length = (l.length + 99) / 100 := by
  induction l using chunks100.induct with
  | case1 => simp [chunks100]
  | case2 l h ih =>
    rw [chunks100, dif_neg h]
    simp only [List.length_cons, ih, List.length_drop]
    have hl : 0 < l.length := List.length_pos.mpr h
    omega

theorem chunks100_mem_le (l : List String) : ∀ c ∈ chunks100 l, c.length ≤ 100 := by
  induction l using chunks100.induct with
  | case1 => simp [chunks100]
  | case2 l h ih =>
    rw [chunks100, dif_neg h]
    rintro c hc
    rcases List.mem_cons.mp hc with rfl | hc
    · simp [List.length_take]
    · exact ih c hc

theorem chunks100_dropLast_eq (l : List String) :
    ∀ c ∈ (chunks100 l).dropLast, c.length = 100 := by
  induction l using chunks100.induct with
  | case1 => simp [chunks100]
  | case2 l h ih =>
    rw [chunks100, dif_neg h]
    by_cases hd : l.drop 100 = []
    · simp [hd, chunks100]
    · intro c hc
      rw [List.dropLast_cons_of_ne_nil] at hc
      · rcases List.mem_cons.mp hc with rfl | hc
        · rw [List.length_take]
          have : 100 < l.length := by
            by_contra hle
            exact hd (List.drop_eq_nil_of_le (by omega))
          omega
        · exact ih c hc
      · intro hnil
        rw [chunks100] at hnil
        simp [hd] at hnil

/-! ## Structural lemmas about the first-occurrence dedup loop -/

theorem mem_dedupAux (seen l : List String) (a : String) :
    a ∈ dedupAux seen l ↔ a ∈ l ∧ a ∉ seen := by
  induction l generalizing seen with
  | nil => simp [dedupAux]
  | cons u rest ih =>
    by_cases hu : u ∈ seen
    · simp only [dedupAux, if_pos hu, ih, List.mem_cons]
      constructor
      · rintro ⟨h1, h2⟩
        exact ⟨Or.inr h1, h2⟩
      · rintro ⟨h1 | h1, h2⟩
        · exact absurd (h1 ▸ hu) h2
        · exact ⟨h1, h2⟩
    · simp only [dedupAux, if_neg hu, List.mem_cons, ih]
      constructor
      · rintro (rfl | ⟨h1, h2⟩)
        · exact ⟨Or.inl rfl, hu⟩
        · exact ⟨Or.inr h1, fun hs => h2 (Or.inr hs)⟩
      · rintro ⟨rfl | h1, h2⟩
        · exact Or.inl rfl
        · by_cases hau : a = u
          · exact Or.inl hau
          · exact Or.inr ⟨h1, by simp [List.mem_cons, hau, h2]⟩

theorem nodup_dedupAux (seen l : List String) : (dedupAux seen l).Nodup := by
  induction l generalizing seen with
  | nil => simp [dedupAux]
  | cons u rest ih =>
    by_cases hu : u ∈ seen
    · simpa [dedupAux, hu] using ih seen
    · simp only [dedupAux, if_neg hu, List.nodup_cons]
      refine ⟨fun hmem => ?_, ih (u :: seen)⟩
      exact ((mem_dedupAux _ _ _).mp hmem).2 (List.mem_cons_self u seen)

theorem sublist_dedupAux (seen l : List String) :
    List.Sublist (dedupAux seen l) l := by
  induction l generalizing seen with
  | nil => simp [dedupAux]
  | cons u rest ih =>
    by_cases hu : u ∈ seen
    · rw [dedupAux, if_pos hu]
      exact (ih seen).cons u
    · rw [dedupAux, if_neg hu]
      exact (ih (u :: seen)).cons₂ u

theorem dedupAux_indexOf_lt (l : List String) :
    ∀ (seen : List String) (x y : String),
      x ∉ seen → y ∉ seen → x ≠ y → y ∈ l → l.indexOf x < l.indexOf y →
      (dedupAux seen l).indexOf x < (dedupAux seen l).indexOf y := by
  induction l with
  | nil =>
    intro seen x y _ _ _ hy _
    exact absurd hy (List.not_mem_nil y)
  | cons u rest ih =>
    intro seen x y hx hy hxy hyl hlt
    by_cases hu : u ∈ seen
    · have hux : u ≠ x := fun h => hx (h ▸ hu)
      have huy : u ≠ y := fun h => hy (h ▸ hu)
      rw [dedupAux, if_pos hu]
      rw [List.indexOf_cons_ne _ hux, List.indexOf_cons_ne _ huy] at hlt
      have hyr : y ∈ rest := by
        rcases List.mem_cons.mp hyl with h | h
        · exact absurd h.symm huy
        · exact h
      exact ih seen x y hx hy hxy hyr (by omega)
    · by_cases hux : u = x
      · subst hux
        rw [dedupAux, if_neg hu, List.indexOf_cons_self,
          List.indexOf_cons_ne _ (show u ≠ y from hxy)]
        exact Nat.succ_pos _
      · by_cases huy : u = y
        · subst huy
          rw [List.indexOf_cons_self] at hlt
          exact absurd hlt (Nat.not_lt_zero _)
        · rw [dedupAux, if_neg hu, List.indexOf_cons_ne _ hux,
            List.indexOf_cons_ne _ huy]
          rw [List.indexOf_cons_ne _ hux, List.indexOf_cons_ne _ huy] at hlt
          have hyr : y ∈ rest := by
            rcases List.mem_cons.mp hyl with h | h
            · exact absurd h.symm huy
            · exact h
          have hx2 : x ∉ u :: seen := by
            intro h
            rcases List.mem_cons.mp h with h1 | h1
            · exact hux h1.symm
            · exact hx h1
          have hy2 : y ∉ u :: seen := by
            intro h
            rcases List.mem_cons.mp h with h1 | h1
            · exact huy h1.symm
            · exact hy h1
          have := ih (u :: seen) x y hx2 hy2 hxy hyr (by omega)
          omega

/-! ## Structural lemmas about the aggregation loop -/

theorem foldl_processItem_spec (results : List LookupResult) (st : AggState) :
    (results.foldl processItem st).uncategorized_urls
      = st.uncategorized_urls ++
        (results.filter (fun r => r.urlClassifications.isEmpty)).map (fun r => r.url) ∧
    (results.foldl processItem st).categorized_count
      = st.categorized_count +
        (results.filter (fun r => !r.urlClassifications.isEmpty)).length ∧
    (results.foldl processItem st).results_for_csv
      = st.results_for_csv ++ results.map rowEntry := by
  induction results generalizing st with
  | nil => simp
  | cons r rest ih =>
    obtain ⟨ih1, ih2, ih3⟩ := ih (processItem st r)
    simp only [List.foldl_cons, List.filter_cons, List.map_cons]
    by_cases hr : r.urlClassifications.isEmpty
    · rw [ih1, ih2, ih3]
      simp [processItem, hr, rowEntry, List.append_assoc]
    · rw [ih1, ih2, ih3]
      simp [processItem, hr, rowEntry, List.append_assoc]
      omega

theorem countSum_bumpCount (m : List (String × Nat)) (cat : String) :
    countSum (bumpCount m cat) = countSum m + 1 := by
  induction m with
  | nil => simp [bumpCount, countSum]
  | cons kv rest ih =>
    obtain ⟨k, v⟩ := kv
    by_cases hk : k = cat
    · simp [bumpCount, hk, countSum]
      omega
    · simp only [bumpCount, if_neg hk, countSum, List.map_cons, List.sum_cons] at *
      omega

theorem countSum_foldl_bump (labels : List String) (m : List (String × Nat)) :
    countSum (labels.foldl bumpCount m) = countSum m + labels.length := by
  induction labels generalizing m with
  | nil => simp
  | cons c cs ih =>
    rw [List.foldl_cons, ih, countSum_bumpCount]
    simp
    omega

theorem countSum_foldl_processItem (results : List LookupResult) (st : AggState) :
    countSum (results.foldl processItem st).category_count
      = countSum st.category_count +
        (results.map (fun r => r.urlClassifications.length)).sum := by
  induction results generalizing st with
  | nil => simp
  | cons r rest ih =>
    rw [List.foldl_cons, ih]
    by_cases hr : r.urlClassifications.isEmpty
    · have he : r.urlClassifications = [] := by
        simpa [List.isEmpty_iff] using hr
      simp [processItem, hr, he]
    · simp [processItem, hr, countSum_foldl_bump]
      omega

theorem length_filter_le_sum_lengths (results : List LookupResult) :
    (results.filter (fun r => !r.urlClassifications.isEmpty)).length ≤
      (results.map (fun r => r.urlClassifications.length)).sum := by
  induction results with
  | nil => simp
  | cons r rest ih =>
    simp only [List.filter_cons, List.map_cons, List.sum_cons]
    by_cases hr : r.urlClassifications.isEmpty
    · simp only [hr, Bool.not_true, List.length_cons]
      have he : r.urlClassifications = [] := by
        simpa [List.isEmpty_iff] using hr
      simp [he]
      omega
    · have h1 : 1 ≤ r.urlClassifications.length := by
        cases h : r.urlClassifications with
        | nil => rw [h] at hr; simp at hr
        | cons a as => simp [h]
      simp only [hr, Bool.not_false, List.length_cons]
      simp
      omega

/-! ## Claims -/

/-- C1 counterexample: a 429 whose JSON error body parses but carries no
`Retry-After` field waits `computeBackoff (.json none) = 4` seconds, not the
3 seconds the claim states for an absent field. -/
theorem computeBackoff_absent_field_ne_three :
    computeBackoff (.json none) = 4 ∧ (4 : Int) ≠ 3 := by
  exact ⟨by decide, by decide⟩

/-- C1 (amended): the backoff before the single 429 retry is the leading
integer of the `Retry-After` field plus 2 when the field is present and
parses; when the field is absent from a parsed JSON body it is 4 (the
placeholder default `"2 seconds"` is parsed, 2 + 2); when the leading-integer
parse raises, or the body itself is not a JSON object with a string field,
it falls back to 3. -/
theorem computeBackoff_spec :
    (∀ s n, leadingInt s = some n → computeBackoff (.json (some s)) = n + 2) ∧
    computeBackoff (.json none) = 4 ∧
    (∀ s, leadingInt s = none → computeBackoff (.json (some s)) = 3) ∧
    computeBackoff .notJson = 3 := by
  refine ⟨fun s n h => ?_, by decide, fun s h => ?_, rfl⟩
  · simp [computeBackoff, h]
  · simp [computeBackoff, h]

/-- Witness for C1: a present field "5 seconds" waits 5 + 2 = 7; an
unparseable field "soon" falls back to 3. -/
theorem computeBackoff_spec_witness :
    computeBackoff (.json (some "5 seconds")) = 7 ∧
    computeBackoff (.json (some "soon")) = 3 := by
  have h := computeBackoff_spec
  exact ⟨h.1 "5 seconds" 5 (by decide), h.2.2.1 "soon" (by decide)⟩

/-- C2: a 429 on attempt 0 followed by a success returns that payload after
one backoff; a second consecutive 429, or a non-429 HTTP error on either
attempt, propagates as a failure; and the loop never issues a third HTTP
attempt. -/
theorem requestWithRetry_spec {α : Type} (outcomes : Nat → HttpOutcome α) :
    (∀ b p, outcomes 0 = .httpError 429 b → outcomes 1 = .ok p →
      requestWithRetry outcomes = (.success p, 2, [computeBackoff b])) ∧
    (∀ b s2 b2, outcomes 0 = .httpError 429 b → outcomes 1 = .httpError s2 b2 →
      requestWithRetry outcomes = (.httpFailure s2, 2, [computeBackoff b])) ∧
    (∀ s b, outcomes 0 = .httpError s b → s ≠ 429 →
      requestWithRetry outcomes = (.httpFailure s, 1, [])) ∧
    (requestWithRetry outcomes).2.1 ≤ 2 := by
  refine ⟨fun b p h0 h1 => ?_, fun b s2 b2 h0 h1 => ?_, fun s b h0 hs => ?_, ?_⟩
  · simp [requestWithRetry, h0, h1]
  · simp [requestWithRetry, h0, h1]
  · simp [requestWithRetry, h0, hs]
  · unfold requestWithRetry
    cases h0 : outcomes 0 with
    | ok p => simp
    | netError => simp
    | httpError s b =>
      by_cases hs : s = 429
      · subst hs
        cases h1 : outcomes 1 <;> simp
      · simp [hs]

/-- Witness for C2: a server answering 429 (non-JSON body) then 200 with
payload 7 makes the call succeed with 7 after two attempts and one 3-second
backoff. -/
theorem requestWithRetry_spec_witness :
    requestWithRetry (fun n => if n = 0 then .httpError 429 .notJson else .ok (7 : Nat))
      = (.success 7, 2, [3]) ∧
    requestWithRetry (α := Nat) (fun _ => HttpOutcome.httpError 500 .notJson)
      = (.httpFailure 500, 1, []) := by
  have h1 := requestWithRetry_spec
    (fun n => if n = 0 then .httpError 429 .notJson else .ok (7 : Nat))
  have h2 := requestWithRetry_spec (α := Nat) (fun _ => HttpOutcome.httpError 500 .notJson)
  exact ⟨h1.1 .notJson 7 rfl rfl, h2.2.2.1 500 .notJson rfl (by decide)⟩

/-- C3 counterexample: with no token held, a refresh at time 0 whose response
reports `expires_in = 300` stores `token_expiry = 0 + 300 - 300 = 0`, so
`ensureToken` hands out a token although now = 0 is not strictly before the
stored expiry. -/
theorem ensureAuthenticated_margin_counterexample :
    (ensureAuthenticated 0 ⟨"tok", some 300⟩ ⟨none, 0⟩).access_token = some "tok" ∧
    ¬ (0 < (ensureAuthenticated 0 ⟨"tok", some 300⟩ ⟨none, 0⟩).token_expiry) := by
  exact ⟨by decide, by decide⟩

/-- C3 (amended): a successful exchange at time `now` stores
`token_expiry = now + expires_in - 300` with `expires_in` defaulting to 3600
when absent; and whenever the server-reported lifetime exceeds the 300-second
safety margin, `ensureAuthenticated` leaves the clock strictly before the
stored expiry — both when it refreshes and when it keeps a still-valid
token. -/
theorem ensureAuthenticated_spec (now : Int) (resp : TokenResponse) (st : ClientState) :
    (getAccessToken now resp).token_expiry = now + resp.expires_in.getD 3600 - 300 ∧
    (300 < resp.expires_in.getD 3600 →
      now < (ensureAuthenticated now resp st).token_expiry) := by
  refine ⟨rfl, fun hmargin => ?_⟩
  unfold ensureAuthenticated
  split
  · simp only [getAccessToken]
    omega
  · rename_i hcond
    push_neg at hcond
    exact hcond.2

/-- Witness for C3: a fresh exchange at time 5 with `expires_in = 3600`
stores expiry 3305, strictly after 5. -/
theorem ensureAuthenticated_spec_witness :
    (getAccessToken 5 ⟨"t", some 3600⟩).token_expiry = 3305 ∧
    5 < (ensureAuthenticated 5 ⟨"t", some 3600⟩ ⟨none, 0⟩).token_expiry := by
  have h := ensureAuthenticated_spec 5 ⟨"t", some 3600⟩ ⟨none, 0⟩
  exact ⟨h.1.trans (by decide), h.2 (by decide)⟩

/-- C8 counterexample: the stored `last_request_time` starts at 0, so a first
throttle call when the clock reads 1 sleeps for 1 unit and completes at 2 —
the first call can block. -/
theorem enforceRateLimit_first_call_blocks :
    enforceRateLimit 0 1 = 2 ∧ (2 : ℚ) ≠ 1 := by
  constructor
  · norm_num [enforceRateLimit, min_request_interval]
  · norm_num

/-- C8 (amended): for two consecutive throttle completions — the second call
entered no earlier than the first completed — the completions are at least
`min_request_interval = 2` apart; and the first call (initial
`last_request_time = 0`) completes immediately provided the clock already
reads at least 2. -/
theorem enforceRateLimit_spec (last now1 now2 : ℚ) :
    (enforceRateLimit last now1 ≤ now2 →
      min_request_interval ≤
        enforceRateLimit (enforceRateLimit last now1) now2 - enforceRateLimit last now1) ∧
    (min_request_interval ≤ now1 → enforceRateLimit 0 now1 = now1) := by
  constructor
  · intro h
    unfold enforceRateLimit at *
    split <;> split_ifs at h ⊢ <;> linarith
  · intro h
    unfold enforceRateLimit
    rw [if_neg]
    push_neg
    linarith

/-- Witness for C8: first call at time 10 completes at 10 without blocking; a
second call entering at 11 completes at 12, two units after the first. -/
theorem enforceRateLimit_spec_witness :
    2 ≤ enforceRateLimit (enforceRateLimit 0 10) 11 - enforceRateLimit 0 10 ∧
    enforceRateLimit 0 10 = 10 := by
  have h := enforceRateLimit_spec 0 10 11
  have h1 := h.1 (by norm_num [enforceRateLimit, min_request_interval])
  have h2 := h.2 (by norm_num [min_request_interval])
  exact ⟨by simpa [min_request_interval] using h1, h2⟩

/-- C4: `lookup_urls` issues exactly `ceil(len(urls) / 100)` Gateway POST
calls — stated both as the source's own `(len + 99) // 100` and by the two
ceiling inequalities — one per consecutive chunk of at most 100 URLs taken in
order, returns the concatenation of the per-chunk responses in chunk order,
and for an empty input issues zero calls and returns the empty list. -/
theorem lookup_urls_spec (oracle : List String → List LookupResult)
    (urls : List String) :
    lookupCallCount urls = (urls.length + 99) / 100 ∧
    urls.length ≤ 100 * lookupCallCount urls ∧
    (urls ≠ [] → 100 * (lookupCallCount urls - 1) < urls.length) ∧
    lookup_urls oracle urls = ((chunks100 urls).map oracle).flatten ∧
    (∀ c ∈ chunks100 urls, c.length ≤ 100) ∧
    (chunks100 urls).flatten = urls ∧
    (urls = [] → lookupCallCount urls = 0 ∧ lookup_urls oracle urls = []) := by
  have hlen : lookupCallCount urls = (urls.length + 99) / 100 :=
    chunks100_length_eq urls
  refine ⟨hlen, by omega, fun hne => ?_, rfl, chunks100_mem_le urls,
    chunks100_flatten urls, fun he => ?_⟩
  · have : 0 < urls.length := List.length_pos.mpr hne
    omega
  · subst he
    exact ⟨by simp [lookupCallCount, chunks100], by simp [lookup_urls, chunks100]⟩

/-- Witness for C4: three URLs make a single chunk, hence one call whose
response comes back unchanged, and the ceiling lower bound holds. -/
theorem lookup_urls_spec_witness :
    lookupCallCount ["a", "b", "c"] = (3 + 99) / 100 ∧
    100 * (lookupCallCount ["a", "b", "c"] - 1) < 3 ∧
    lookup_urls (fun c => c.map (fun u => ⟨u, []⟩)) ["a", "b", "c"]
      = [⟨"a", []⟩, ⟨"b", []⟩, ⟨"c", []⟩] := by
  have h := lookup_urls_spec (fun c => c.map (fun u => ⟨u, []⟩)) ["a", "b", "c"]
  refine ⟨h.1, by simpa using h.2.2.1 (by decide), ?_⟩
  rw [h.2.2.2.1]
  simp [chunks100]

/-- C9: the chunks submitted by `lookup_urls` form an exact ordered partition
of the input: their concatenation in submission order is the input list, and
every chunk except possibly the last has exactly 100 URLs. -/
theorem chunks100_partition (urls : List String) :
    (chunks100 urls).flatten = urls ∧
    (∀ c ∈ (chunks100 urls).dropLast, c.length = 100) := by
  exact ⟨chunks100_flatten urls, chunks100_dropLast_eq urls⟩

/-- Witness for C9 at a 205-element list: two full chunks of 100 and a last
chunk of 5, flattening back to the input. -/
theorem chunks100_partition_witness :
    ((chunks100 (List.replicate 205 "u")).flatten = List.replicate 205 "u") ∧
    (chunks100 (List.replicate 205 "u")).dropLast.length = 2 ∧
    (chunks100 (List.replicate 205 "u")).dropLast.all
      (fun c => c.length == 100) = true := by
  have h := chunks100_partition (List.replicate 205 "u")
  refine ⟨h.1, ?_, ?_⟩
  · have hlen := chunks100_length_eq (List.replicate 205 "u")
    simp only [List.length_replicate] at hlen
    rw [List.length_dropLast, hlen]
  · rw [List.all_eq_true]
    intro c hc
    simpa using h.2 c hc

/-- C5: `get_category_urls` returns the concatenation of `urls` followed by
`dbCategorizedUrls` with duplicates removed by first occurrence — the output
has no repeated URL, is a subsequence of that concatenation containing
exactly its elements, and any two URLs of the input keep the relative order
of their first occurrences (`indexOf` is the first-occurrence index) — and
the returned display name is "UNKNOWN" when `configuredName` is absent. -/
theorem get_category_urls_spec (data : CategoryDetail) :
    (get_category_urls data).1.Nodup ∧
    List.Sublist (get_category_urls data).1 (data.urls ++ data.dbCategorizedUrls) ∧
    (∀ u, u ∈ (get_category_urls data).1 ↔ u ∈ data.urls ++ data.dbCategorizedUrls) ∧
    (∀ x y, x ≠ y → y ∈ data.urls ++ data.dbCategorizedUrls →
      (data.urls ++ data.dbCategorizedUrls).indexOf x <
        (data.urls ++ data.dbCategorizedUrls).indexOf y →
      (get_category_urls data).1.indexOf x < (get_category_urls data).1.indexOf y) ∧
    (data.configuredName = none → (get_category_urls data).2 = "UNKNOWN") := by
  refine ⟨nodup_dedupAux _ _, sublist_dedupAux _ _, fun u => ?_,
    fun x y hxy hy hlt => ?_, fun h => ?_⟩
  · have := mem_dedupAux [] (data.urls ++ data.dbCategorizedUrls) u
    simpa using this
  · exact dedupAux_indexOf_lt _ [] x y (List.not_mem_nil x) (List.not_mem_nil y)
      hxy hy hlt
  · simp [get_category_urls, h]

/-- Witness for C5: `urls = ["a", "b"]` and `dbCategorizedUrls = ["a", "c"]`
collapse to `["a", "b", "c"]`, "b" stays before "c", and the missing
`configuredName` falls back to "UNKNOWN". -/
theorem get_category_urls_spec_witness :
    (get_category_urls ⟨["a", "b"], ["a", "c"], none⟩).1 = ["a", "b", "c"] ∧
    (get_category_urls ⟨["a", "b"], ["a", "c"], none⟩).1.indexOf "b" <
      (get_category_urls ⟨["a", "b"], ["a", "c"], none⟩).1.indexOf "c" ∧
    (get_category_urls ⟨["a", "b"], ["a", "c"], none⟩).2 = "UNKNOWN" := by
  have h := get_category_urls_spec ⟨["a", "b"], ["a", "c"], none⟩
  exact ⟨by decide, h.2.2.2.1 "b" "c" (by decide) (by decide) (by decide),
    h.2.2.2.2 rfl⟩

/-- C6: the aggregation of `analyze_category` satisfies
`categorized_count + len(uncategorized_urls) == total`, the per-label
frequency counts sum to at least `categorized_count`, and the two
percentages equal `round(count / total * 100, 2)` with both defined as 0
when the total is 0. -/
theorem aggregate_invariants (results : List LookupResult) :
    (aggregate results).categorized_count +
        (aggregate results).uncategorized_urls.length = results.length ∧
    (aggregate results).categorized_count ≤
      countSum (aggregate results).category_count ∧
    percent_categorized results = (if results.length = 0 then 0 else
      round2 (((aggregate results).categorized_count : ℚ) / results.length * 100)) ∧
    percent_uncategorized results = (if results.length = 0 then 0 else
      round2 (((aggregate results).uncategorized_urls.length : ℚ) / results.length * 100)) := by
  obtain ⟨h1, h2, h3⟩ := foldl_processItem_spec results ⟨[], 0, [], []⟩
  refine ⟨?_, ?_, ?_, ?_⟩
  · have htot := List.length_eq_length_filter_add
      (l := results) (fun r => r.urlClassifications.isEmpty)
    simp only [aggregate, h1, h2, List.nil_append, List.length_map, Nat.zero_add]
    omega
  · have hc : countSum (results.foldl processItem ⟨[], 0, [], []⟩).category_count
        = (results.map (fun r => r.urlClassifications.length)).sum := by
      simpa [countSum] using countSum_foldl_processItem results ⟨[], 0, [], []⟩
    have h4 : (results.foldl processItem ⟨[], 0, [], []⟩).categorized_count
        = (results.filter (fun r => !r.urlClassifications.isEmpty)).length := by
      simpa using h2
    show (results.foldl processItem ⟨[], 0, [], []⟩).categorized_count ≤
      countSum (results.foldl processItem ⟨[], 0, [], []⟩).category_count
    rw [h4, hc]
    exact length_filter_le_sum_lengths results
  · by_cases h : results.length = 0
    · simp [percent_categorized, h]
    · simp [percent_categorized, h, Nat.pos_of_ne_zero h]
  · by_cases h : results.length = 0
    · simp [percent_uncategorized, h]
    · simp [percent_uncategorized, h, Nat.pos_of_ne_zero h]

/-- C7 counterexample: the row for a URL with no classifications carries the
string "<Not categorized>", which differs from the claimed sentinel
"Not categorized". -/
theorem analyze_rows_sentinel_counterexample :
    (aggregate [⟨"a.com", []⟩]).results_for_csv = [("a.com", "<Not categorized>")] ∧
    ("<Not categorized>" : String) ≠ "Not categorized" := by
  exact ⟨by decide, by decide⟩

/-- C7 (amended): every report row's category string is the comma-and-space
join of the label sequence when it is non-empty, and the fixed sentinel
"<Not categorized>" (angle brackets included) when it is empty. -/
theorem analyze_rows_string_spec (results : List LookupResult) :
    (aggregate results).results_for_csv = results.map rowEntry ∧
    (∀ item : LookupResult, item.urlClassifications ≠ [] →
      rowEntry item = (item.url, String.intercalate ", " item.urlClassifications)) ∧
    (∀ item : LookupResult, item.urlClassifications = [] →
      rowEntry item = (item.url, "<Not categorized>")) := by
  obtain ⟨-, -, h3⟩ := foldl_processItem_spec results ⟨[], 0, [], []⟩
  refine ⟨by simpa [aggregate] using h3, fun item h => ?_, fun item h => ?_⟩
  · simp [rowEntry, h]
  · simp [rowEntry, h]

/-- Witness for C7: two labels join as "News, Tech"; an empty label list
produces the "<Not categorized>" row. -/
theorem analyze_rows_string_spec_witness :
    (aggregate [⟨"b.com", ["News", "Tech"]⟩]).results_for_csv
      = [("b.com", "News, Tech")] ∧
    rowEntry ⟨"a.com", []⟩ = ("a.com", "<Not categorized>") := by
  have h := analyze_rows_string_spec [⟨"b.com", ["News", "Tech"]⟩]
  constructor
  · rw [h.1]
    have hj := h.2.1 ⟨"b.com", ["News", "Tech"]⟩ (by decide)
    rw [List.map_cons, List.map_nil, hj]
    decide
  · exact h.2.2 ⟨"a.com", []⟩ rfl

/-- C10: the report has exactly one row per lookup result, in input order,
the i-th row's url being the i-th result's url, and the uncategorized-URL
list is the ordered sublist of urls of the results with no classification. -/
theorem aggregate_rows_order (results : List LookupResult) :
    (aggregate results).results_for_csv.length = results.length ∧
    (aggregate results).results_for_csv.map Prod.fst = results.map (fun r => r.url) ∧
    (aggregate results).uncategorized_urls
      = (results.filter (fun r => r.urlClassifications.isEmpty)).map (fun r => r.url) := by
  obtain ⟨h1, -, h3⟩ := foldl_processItem_spec results ⟨[], 0, [], []⟩
  refine ⟨?_, ?_, by simpa [aggregate] using h1⟩
  · simp [aggregate, h3]
  · simp [aggregate, h3, List.map_map, Function.comp, rowEntry]

end ZiaAnalyzer
